import Mathlib

/-!
# HT16K33 seven-segment display component

A shallow embedding of `components/ht16k33_7seg/ht16k33_display.cpp` and
`components/ht16k33_7seg/font.h`: the text encoder (`print`), the scroll
controller (`loop`), the content refresh (`update`), the window renderer
(`display_`) and the brightness controller (`set_brightness`), followed by the
properties established about them.

Conventions.
* A C string is the list of the bytes stored from the pointer onwards; the
  scan stops at the first zero byte, and the end of the list stands for the
  terminating zero.
* `uint16_t` cells are natural numbers reduced modulo `2 ^ 16` where the code
  narrows; `unsigned long` time arithmetic is reduced modulo `2 ^ 32`.
* `int` quantities (`offset_`, the lengths) are integers.
* A finite `float` is the rational number it denotes.
-/

namespace esphome
namespace ht16k33_7seg

/-! ## font.h -/

/-- The glyph table of `font.h`: one segment mask per byte value `0..127`, four entries per row. -/
def alphafonttable : List Nat := [
  0b00000000, 0b00000001, 0b00000010, 0b00000100,  -- 0..3
  0b00001000, 0b00010000, 0b00100000, 0b01000000,  -- 4..7
  0b10000000, 0b11111111, 0b11111111, 0b11111111,  -- 8..11
  0b11111111, 0b11111111, 0b11111111, 0b11111111,  -- 12..15
  0b11111111, 0b11111111, 0b11111111, 0b11111111,  -- 16..19
  0b11111111, 0b11111111, 0b11111111, 0b11111111,  -- 20..23
  0b11111111, 0b11111111, 0b11111111, 0b01100011,  -- 24..27
  0b11111111, 0b01000000, 0b11111111, 0b11111111,  -- 28..31
  0b00000000, 0b10000110, 0b00100010, 0b01111110,  -- 32..35
  0b01101101, 0b11010010, 0b01000110, 0b00100000,  -- 36..39
  0b00101001, 0b00001011, 0b00100001, 0b01110000,  -- 40..43
  0b00010000, 0b01000000, 0b10000000, 0b01010010,  -- 44..47
  0b00111111, 0b00000110, 0b01011011, 0b01001111,  -- 48..51
  0b01100110, 0b01101101, 0b01111101, 0b00000111,  -- 52..55
  0b01111111, 0b01101111, 0b00001001, 0b00001101,  -- 56..59
  0b01100001, 0b01001000, 0b01000011, 0b11010011,  -- 60..63
  0b01011111, 0b01110111, 0b01111100, 0b00111001,  -- 64..67
  0b01011110, 0b01111001, 0b01110001, 0b00111101,  -- 68..71
  0b01110110, 0b00110000, 0b00011110, 0b01110101,  -- 72..75
  0b00111000, 0b00010101, 0b00110111, 0b00111111,  -- 76..79
  0b01110011, 0b01101011, 0b00110011, 0b01101101,  -- 80..83
  0b01111000, 0b00111110, 0b00111110, 0b00101010,  -- 84..87
  0b01110110, 0b01101110, 0b01011011, 0b00111001,  -- 88..91
  0b01100100, 0b00001111, 0b00100011, 0b00001000,  -- 92..95
  0b00000010, 0b01011111, 0b01111100, 0b01011000,  -- 96..99
  0b01011110, 0b01111011, 0b01110001, 0b01101111,  -- 100..103
  0b01110100, 0b00010000, 0b00001100, 0b01110101,  -- 104..107
  0b00110000, 0b00010100, 0b01010100, 0b01011100,  -- 108..111
  0b01110011, 0b01100111, 0b01010000, 0b01101101,  -- 112..115
  0b01111000, 0b00011100, 0b00011100, 0b00010100,  -- 116..119
  0b01110110, 0b01101110, 0b01011011, 0b01000110,  -- 120..123
  0b00110000, 0b01110000, 0b00000001, 0b00000000  -- 124..127
]

/-! ## The encoder: `HT16K337SegDisplay::print` -/

/-- The value stored in `fontc` by the first half of the loop body of `print`:
`if (c > 127) fontc = 0; else fontc = (pgm_read_word(&alphafonttable[c]) << 8);`
narrowed to `uint16_t`. -/
def fontcOf (c : Nat) : Nat :=
  if c > 127 then 0 else ((alphafonttable.getD c 0) <<< 8) % 65536

/-- The `while (*str != '\0')` loop of `print`, started at the bytes `str` with the
frame buffer `buf`. Each round reads one byte, computes `fontc`, peeks at the next
byte and, when that is `'.'` (46), ors in `1 << 15` and steps over it; then
`push_back(fontc)`. -/
def printLoop : List Nat → List Nat → List Nat
  | [], buf => buf
  | c :: rest, buf =>
    if c = 0 then buf
    else
      match rest with
      | [] => buf ++ [fontcOf c]
      | c2 :: rest2 =>
        if c2 = 46 then printLoop rest2 (buf ++ [(fontcOf c ||| (1 <<< 15)) % 65536])
        else printLoop (c2 :: rest2) (buf ++ [fontcOf c])

/-! ## The component state -/

/-- One transfer handed to the I2C transport: `write_bytes(reg, nullptr, 0)` has no
data, `write_bytes_16(reg, data, len)` carries `len` 16-bit words. `device` is the
position of the unit in `displays_`. -/
structure I2CWrite where
  device : Nat
  reg : Nat
  data : List Nat
deriving DecidableEq

/-- Modelled from the spec: the class declaration (`ht16k33_display.h`) is not among the
sources. The fields are those that the member functions of `ht16k33_display.cpp` read and
write, typed after the data model: the offset an integer (`int`, as the lengths it is
compared with), the times `unsigned long` values, the cells 16-bit values, the brightness
a level `0..16`. `displays_` is kept as the number of configured units
(`displays_.size()`), the units themselves being the transport. -/
structure HT16K337SegDisplay where
  displays_ : Nat
  scroll_ : Bool
  continuous_ : Bool
  scroll_speed_ : Nat
  scroll_dwell_ : Nat
  scroll_delay_ : Nat
  last_scroll_ : Nat
  buffer_ : List Nat
  offset_ : Int
  brightness_ : Nat
deriving DecidableEq

/-- What the code reads from storage it has not written itself: `ACTIVE_COLS[i]`
for `i` beyond the five entries of the array, the previous contents of the stack
words that `data[]` is laid over, and `buffer_[pos]` for a negative `pos`. -/
structure Memory where
  activeColsPast : Nat → Bool
  stack : Nat → Nat
  heap : Int → Nat

def DISPLAY_COMMAND_SET_DDRAM_ADDR : Nat := 0x00
def DISPLAY_COMMAND_SYSTEM_SETUP : Nat := 0x21
def DISPLAY_COMMAND_DISPLAY_OFF : Nat := 0x80
def DISPLAY_COMMAND_DISPLAY_ON : Nat := 0x81
def DISPLAY_COMMAND_DIMMING : Nat := 0xE0

def ACTIVE_COLS : List Bool := [true, true, false, true, true]
/-- The constant `COL_COUNT = sizeof(ACTIVE_COLS)`, five one-byte `bool`s. -/
def COL_COUNT : Nat := ACTIVE_COLS.length
def CHAR_COL_COUNT : Nat := 4

/-- Width of `unsigned long` on the 32-bit targets of the component. -/
def ULONG_MOD : Nat := 2 ^ 32

/-- Subtraction of two `unsigned long` values, `a - b` wrapping modulo `2 ^ 32`. -/
def usub (a b : Nat) : Nat := (a % ULONG_MOD + ULONG_MOD - b % ULONG_MOD) % ULONG_MOD

/-- `HT16K337SegDisplay::print(const char *str)`: the loop appends to `buffer_`. -/
def print (d : HT16K337SegDisplay) (str : List Nat) : HT16K337SegDisplay :=
  { d with buffer_ := printLoop str d.buffer_ }

/-! ## The window renderer: `HT16K337SegDisplay::display_` -/

/-- The read `ACTIVE_COLS[i]` as the loop of `display_` performs it, `i` running up
to `dataCount`. -/
def activeColAt (mem : Memory) (i : Nat) : Bool :=
  match ACTIVE_COLS.get? i with
  | some b => b
  | none => mem.activeColsPast i

/-- The read `this->buffer_[pos]`. -/
def bufferAt (mem : Memory) (buffer : List Nat) (pos : Int) : Nat :=
  if 0 ≤ pos then
    match buffer.get? pos.toNat with
    | some v => v
    | none => mem.heap pos
  else mem.heap pos

/-- Word `k` of `uint16_t data[dataCount]` after `memset(data, 0, dataCount)`: the
call clears `dataCount` bytes, which is the first half of the words (and the low
byte of the middle word when `dataCount` is odd, the targets being little-endian). -/
def dataAfterMemset (mem : Memory) (dataCount k : Nat) : Nat :=
  if 2 * k + 1 < dataCount then 0
  else if 2 * k < dataCount then (mem.stack k % 65536) / 256 * 256
  else mem.stack k % 65536

/-- One round of `for (int i = 0; i < dataCount; i++)` in `display_`, on the pair
`(pos, data)`. The statement `pos %= bufferLength` after `continue` is never run. -/
def displayStep (mem : Memory) (d : HT16K337SegDisplay) (st : Int × List Nat) (i : Nat) :
    Int × List Nat :=
  let bufferLength : Int := d.buffer_.length
  let pos := st.1
  let data := st.2
  if activeColAt mem i = false then (pos, data.set i 0)
  else if pos ≥ bufferLength then
    if d.continuous_ = false then (pos, data.set i 0) else (pos, data)
  else (pos + 1, data.set i (bufferAt mem d.buffer_ pos))

/-- The array `data` at the end of the first loop of `display_`. -/
def displayData (mem : Memory) (d : HT16K337SegDisplay) : List Nat :=
  let dataCount := d.displays_ * COL_COUNT
  let data := (List.range dataCount).map (dataAfterMemset mem dataCount)
  ((List.range dataCount).foldl (displayStep mem d) (d.offset_, data)).2

/-- `HT16K337SegDisplay::display_`: the transfers it issues, one
`write_bytes_16(DISPLAY_COMMAND_SET_DDRAM_ADDR, data + pos, COL_COUNT)` per unit with
`pos` advancing by `COL_COUNT`. -/
def display_ (mem : Memory) (d : HT16K337SegDisplay) : List I2CWrite :=
  let data := displayData mem d
  (List.range d.displays_).map fun u =>
    { device := u, reg := DISPLAY_COMMAND_SET_DDRAM_ADDR,
      data := (data.drop (u * COL_COUNT)).take COL_COUNT }

/-! ## The scroll controller: `HT16K337SegDisplay::loop` -/

/-- `HT16K337SegDisplay::loop` with `now` the value returned by `millis()`. The result
is the state after the call and the list of redraws made, each redraw being the
transfers of one call of `display_`. -/
def loop (mem : Memory) (d : HT16K337SegDisplay) (now : Nat) :
    HT16K337SegDisplay × List (List I2CWrite) :=
  let characterCount : Int := ((d.displays_ * CHAR_COL_COUNT : Nat) : Int)
  let bufferLength : Int := (d.buffer_.length : Int)
  if d.scroll_ = false ∨ bufferLength ≤ characterCount then (d, [])
  else if d.offset_ = 0 ∧ usub now d.last_scroll_ < d.scroll_delay_ then (d, [])
  else if (d.continuous_ = false ∧ d.offset_ + characterCount ≥ bufferLength) ∨
      (d.continuous_ = true ∧ d.offset_ > bufferLength - 1) then
    if d.continuous_ = true ∨ usub now d.last_scroll_ ≥ d.scroll_dwell_ then
      let d1 := { d with offset_ := 0, last_scroll_ := now }
      (d1, [display_ mem d1])
    else (d, [])
  else if usub now d.last_scroll_ ≥ d.scroll_speed_ then
    let d1 := { d with offset_ := d.offset_ + 1, last_scroll_ := now }
    (d1, [display_ mem d1])
  else (d, [])

/-! ## The content refresh: `HT16K337SegDisplay::update` -/

/-- Modelled from the spec: `call_writer` and the `writer_` callback are declared in
`ht16k33_display.h`, which is not among the sources. The refresh "invokes an external
content-producing callback that populates text via the Encoder"; the callback is
taken as the texts it prints, in order, every entry point funnelling into `print`. -/
def call_writer (d : HT16K337SegDisplay) (writer : List (List Nat)) : HT16K337SegDisplay :=
  writer.foldl print d

/-- `HT16K337SegDisplay::update` with `now` the value returned by `millis()`. -/
def update (mem : Memory) (writer : List (List Nat)) (d : HT16K337SegDisplay) (now : Nat) :
    HT16K337SegDisplay × List (List I2CWrite) :=
  let prev_bufferLength : Int := (d.buffer_.length : Int)
  let d1 := { d with buffer_ := [] }
  let d2 := call_writer d1 writer
  let characterCount : Int := ((d2.displays_ * CHAR_COL_COUNT : Nat) : Int)
  let bufferLength : Int := (d2.buffer_.length : Int)
  let d3 :=
    if (d2.scroll_ = true ∧ prev_bufferLength ≠ bufferLength ∧ d2.continuous_ = false) ∨
        bufferLength ≤ characterCount then
      { d2 with last_scroll_ := now, offset_ := 0 }
    else d2
  (d3, [display_ mem d3])

/-! ## The brightness controller: `set_brightness`, `get_brightness` -/

/-- The C library function `round`: the nearest integer, halves away from zero. -/
def cRound (x : ℚ) : Int := if 0 ≤ x then ⌊x + 1 / 2⌋ else ⌈x - 1 / 2⌉

/-- The body of `set_brightness` after `int val = (int)round(level * 16);`: the two
clamps, the store to `brightness_`, and for each unit in turn either
`write_bytes(DISPLAY_COMMAND_DISPLAY_OFF, nullptr, 0)` or
`write_bytes(DISPLAY_COMMAND_DIMMING + (val - 1), nullptr, 0)` followed by
`write_bytes(DISPLAY_COMMAND_DISPLAY_ON, nullptr, 0)`, the register narrowed to a byte. -/
def set_brightness_val (d : HT16K337SegDisplay) (val0 : Int) :
    HT16K337SegDisplay × List I2CWrite :=
  let val : Int := if val0 < 0 then 0 else val0
  let val : Int := if val > 16 then 16 else val
  ({ d with brightness_ := val.toNat },
    (List.range d.displays_).flatMap fun u =>
      if val = 0 then
        [{ device := u, reg := DISPLAY_COMMAND_DISPLAY_OFF, data := [] }]
      else
        [{ device := u, reg := ((DISPLAY_COMMAND_DIMMING : Int) + (val - 1)).toNat % 256,
           data := [] },
         { device := u, reg := DISPLAY_COMMAND_DISPLAY_ON, data := [] }])

/-- The least value of the 32-bit `int`. -/
def INT_MIN : Int := -2147483648

/-- The greatest value of the 32-bit `int`. -/
def INT_MAX : Int := 2147483647

/-- The conversion `(int)v` of a floating value that is the whole number `v`: `v` itself
when it lies within `INT_MIN..INT_MAX`. Outside that range the language leaves the
conversion undefined, and the result is what the conversion of the platform returns,
`undefinedInt v`. -/
def floatToInt (undefinedInt : Int → Int) (v : Int) : Int :=
  if INT_MIN ≤ v ∧ v ≤ INT_MAX then v else undefinedInt v

/-- `HT16K337SegDisplay::set_brightness(float level)`. The argument is the rational value
of a finite `float`. On binary floating point the product with 16 (a power of two) and
`round` are exact, so `round(level * 16)` is `cRound (level * 16)`; `(int)` then narrows it
to the 32-bit `int` by `floatToInt`, before the clamps. (A product beyond the largest
`float` becomes an infinity, which is likewise outside the range of `int`.) -/
def set_brightness (undefinedInt : Int → Int) (d : HT16K337SegDisplay) (level : ℚ) :
    HT16K337SegDisplay × List I2CWrite :=
  set_brightness_val d (floatToInt undefinedInt (cRound (level * 16)))

/-- `HT16K337SegDisplay::get_brightness`: `brightness_ / 16.0`, a quotient that is exact
for the levels `0..16`. -/
def get_brightness (d : HT16K337SegDisplay) : ℚ := (d.brightness_ : ℚ) / 16

/-! ## Sequences of calls made by the host -/

/-- One call made by the host integration: a periodic tick (`loop` at time `now`) or a
content refresh (`update` with the texts the content producer prints, at time `now`). -/
inductive Event where
  | tick (now : Nat)
  | refresh (writer : List (List Nat)) (now : Nat)

/-- The state and the redraws after one call. -/
def step (mem : Memory) (d : HT16K337SegDisplay) : Event →
    HT16K337SegDisplay × List (List I2CWrite)
  | Event.tick now => loop mem d now
  | Event.refresh writer now => update mem writer d now

/-- The state after a sequence of calls, with all the redraws made on the way. -/
def run (mem : Memory) (d : HT16K337SegDisplay) : List Event →
    HT16K337SegDisplay × List (List I2CWrite)
  | [] => (d, [])
  | e :: rest =>
    let r := step mem d e
    let r2 := run mem r.1 rest
    (r2.1, r.2 ++ r2.2)

/-! ## Quantities and sample states used in the statements -/

/-- The invariant of the offset: it is never negative, and in bounce mode it is `0` or
scrolling is on and the window `offset .. offset + displays * 4` ends within the buffer. -/
def offsetInv (d : HT16K337SegDisplay) : Prop :=
  0 ≤ d.offset_ ∧
  (d.continuous_ = false →
    d.offset_ = 0 ∨
      (d.scroll_ = true ∧
        d.offset_ + ((d.displays_ * 4 : Nat) : Int) ≤ (d.buffer_.length : Int)))

/-- The cell `B(p)` of the window renderer contract: `buffer[p]` when `p` is within the
buffer and `0` otherwise. -/
def bufferOrZero (buffer : List Nat) (p : Int) : Nat :=
  if 0 ≤ p ∧ p < (buffer.length : Int) then buffer.getD p.toNat 0 else 0

/-- The positions `pos` at which the loop of `display_` evaluates `this->buffer_[pos]`, in
order: the rounds on a column read as active with `pos < bufferLength`. -/
def displayReads (mem : Memory) (d : HT16K337SegDisplay) : List Int :=
  let dataCount := d.displays_ * COL_COUNT
  let data := (List.range dataCount).map (dataAfterMemset mem dataCount)
  ((List.range dataCount).foldl
    (fun (acc : (Int × List Nat) × List Int) i =>
      (displayStep mem d acc.1 i,
        if activeColAt mem i = true ∧ acc.1.1 < (d.buffer_.length : Int) then
          acc.2 ++ [acc.1.1]
        else acc.2))
    ((d.offset_, data), [])).2

/-- A memory in which every foreign read returns zero. -/
def exampleMemory : Memory :=
  { activeColsPast := fun _ => false, stack := fun _ => 0, heap := fun _ => 0 }

/-- One unit in bounce mode with an empty buffer, speed 250, dwell 2000, delay 750. -/
def exampleDisplay : HT16K337SegDisplay :=
  { displays_ := 1, scroll_ := true, continuous_ := false, scroll_speed_ := 250,
    scroll_dwell_ := 2000, scroll_delay_ := 750, last_scroll_ := 0, buffer_ := [],
    offset_ := 0, brightness_ := 16 }

/-- Six cells on one unit of four characters, scrolled by one position. -/
def exampleScrolling : HT16K337SegDisplay :=
  { exampleDisplay with buffer_ := [0x7700, 0x7C00, 0x3900, 0x5E00, 0x7900, 0x7100],
                        offset_ := 1, last_scroll_ := 1000 }

/-- The same six cells at the last bounce position, `offset_ + 4 = 6`. -/
def exampleAtEnd : HT16K337SegDisplay :=
  { exampleScrolling with offset_ := 2 }

/-- Continuous mode with the offset one past the last cell. -/
def exampleWrapped : HT16K337SegDisplay :=
  { exampleScrolling with continuous_ := true, offset_ := 6 }

/-- The six cells at offset `0`, the last transition at time `1000`. -/
def exampleIdle : HT16K337SegDisplay :=
  { exampleScrolling with offset_ := 0 }

/-- A memory in which the bytes that follow `ACTIVE_COLS` are non-zero. -/
def exampleMemoryOnes : Memory :=
  { activeColsPast := fun _ => true, stack := fun _ => 0, heap := fun _ => 0 }

/-- Two units in bounce mode showing eight cells `1..8` from offset `0`. -/
def exampleTwoUnits : HT16K337SegDisplay :=
  { exampleDisplay with displays_ := 2, buffer_ := [1, 2, 3, 4, 5, 6, 7, 8] }

/-- One unit in continuous mode, empty buffer, speed 250, dwell 2000, delay 750. -/
def exampleContinuous : HT16K337SegDisplay :=
  { exampleDisplay with continuous_ := true }

/-- A refresh printing `"ABCDE"` at time `0`, then five ticks `1000` apart. -/
def exampleEvents : List Event :=
  [Event.refresh [[65, 66, 67, 68, 69]] 0, Event.tick 1000, Event.tick 2000,
   Event.tick 3000, Event.tick 4000, Event.tick 5000]

/-- The six cells on one unit in bounce mode with the offset at `4`, two cells before the
end of the buffer. -/
def exampleTrailing : HT16K337SegDisplay :=
  { exampleScrolling with offset_ := 4 }

/-- A conversion that returns `INT_MIN` for every value outside the range of `int`, as
the conversion instruction of x86 does. -/
def exampleIndefinite : Int → Int := fun _ => INT_MIN

/-! ## Properties of the encoder -/

theorem alphafonttable_length : alphafonttable.length = 128 := rfl

theorem alphafonttable_all_lt : alphafonttable.all (fun x => decide (x < 256)) = true := rfl

theorem alphafonttable_lt : ∀ x ∈ alphafonttable, x < 256 := by
  intro x hx
  have h := List.all_eq_true.mp alphafonttable_all_lt x hx
  exact of_decide_eq_true h

theorem getD_alphafonttable_lt (c : Nat) : alphafonttable.getD c 0 < 256 := by
  by_cases h : c < alphafonttable.length
  · rw [List.getD_eq_getElem _ _ h]
    exact alphafonttable_lt _ (List.getElem_mem h)
  · rw [List.getD_eq_default _ _ (by omega)]
    decide

theorem fontcOf_eq (c : Nat) :
    fontcOf c = if c > 127 then 0 else alphafonttable.getD c 0 <<< 8 := by
  unfold fontcOf
  split
  · rfl
  · have := getD_alphafonttable_lt c
    rw [Nat.shiftLeft_eq]
    omega

theorem fontcOf_lt (c : Nat) : fontcOf c < 32768 + 32768 := by
  unfold fontcOf
  split <;> omega

theorem printLoop_buf_aux (n : Nat) :
    ∀ s : List Nat, s.length ≤ n → ∀ buf, printLoop s buf = buf ++ printLoop s [] := by
  induction n with
  | zero =>
    intro s hs buf
    have : s = [] := List.length_eq_zero.mp (by omega)
    subst this
    simp [printLoop]
  | succ n ih =>
    intro s hs buf
    match s, hs with
    | [], _ => simp [printLoop]
    | [c], _ => by_cases hc : c = 0 <;> simp [printLoop, hc]
    | c :: c2 :: rest2, hs =>
      simp only [List.length_cons] at hs
      by_cases hc : c = 0
      · simp [printLoop, hc]
      · by_cases h2 : c2 = 46
        · rw [printLoop, if_neg hc, if_pos h2, ih rest2 (by omega)]
          conv_rhs => rw [printLoop, if_neg hc, if_pos h2, ih rest2 (by omega)]
          simp
        · rw [printLoop, if_neg hc, if_neg h2, ih (c2 :: rest2) (by simp; omega)]
          conv_rhs => rw [printLoop, if_neg hc, if_neg h2, ih (c2 :: rest2) (by simp; omega)]
          simp

theorem printLoop_buf (s buf : List Nat) : printLoop s buf = buf ++ printLoop s [] :=
  printLoop_buf_aux s.length s (Nat.le_refl _) buf

theorem printLoop_cons_period (c : Nat) (hc : c ≠ 0) (rest : List Nat) :
    printLoop (c :: 46 :: rest) [] = ((fontcOf c ||| 32768) % 65536) :: printLoop rest [] := by
  rw [printLoop, if_neg hc, if_pos rfl, printLoop_buf]
  rfl

theorem printLoop_cons_other (c : Nat) (hc : c ≠ 0) (rest : List Nat)
    (h : rest.head? ≠ some 46) :
    printLoop (c :: rest) [] = fontcOf c :: printLoop rest [] := by
  cases rest with
  | nil => simp [printLoop, hc]
  | cons c2 rest2 =>
    have h2 : c2 ≠ 46 := by simpa using h
    rw [printLoop, if_neg hc, if_neg h2, printLoop_buf]
    rfl

theorem lor_dp_mod (x : Nat) (hx : x < 65536) : (x ||| 32768) % 65536 = x ||| 32768 := by
  have h : x ||| 32768 < 2 ^ 16 := Nat.or_lt_two_pow (by simpa using hx) (by norm_num)
  exact Nat.mod_eq_of_lt (by simpa using h)

theorem testBit_lor_dp (x : Nat) : (x ||| 32768).testBit 15 = true := by
  rw [Nat.testBit_or]
  have : (32768 : Nat).testBit 15 = true := by decide
  simp [this]

theorem printLoop_period_free (s : List Nat) (hnul : ∀ b ∈ s, b ≠ 0) (hdot : ∀ b ∈ s, b ≠ 46) :
    printLoop s [] = s.map fontcOf := by
  induction s with
  | nil => rfl
  | cons c rest ih =>
    have hc : c ≠ 0 := hnul c (List.mem_cons_self _ _)
    have hr : rest.head? ≠ some 46 := by
      cases rest with
      | nil => simp
      | cons c2 r => 
        have := hdot c2 (by simp)
        simpa using this
    rw [printLoop_cons_other c hc rest hr,
      ih (fun b hb => hnul b (List.mem_cons_of_mem _ hb))
        (fun b hb => hdot b (List.mem_cons_of_mem _ hb))]
    rfl

/-- C1: for every NUL-free text `s` without a period, `print(s)` on an empty buffer yields
exactly `|s|` cells; cell `i` is `0` when `s[i] > 127` and `alphafonttable[s[i]] << 8`
otherwise, the index being within the 128 entries of the table. -/
theorem print_period_free (d : HT16K337SegDisplay) (s : List Nat)
    (hd : d.buffer_ = []) (hnul : ∀ b ∈ s, b ≠ 0) (hdot : ∀ b ∈ s, b ≠ 46) :
    alphafonttable.length = 128 ∧
    (print d s).buffer_.length = s.length ∧
    ∀ (i : Nat) (hi : i < s.length),
      (s.get ⟨i, hi⟩ > 127 → (print d s).buffer_.get? i = some 0) ∧
      (s.get ⟨i, hi⟩ ≤ 127 → ∃ h : s.get ⟨i, hi⟩ < alphafonttable.length,
        (print d s).buffer_.get? i = some (alphafonttable.get ⟨s.get ⟨i, hi⟩, h⟩ <<< 8)) := by
  have hb : (print d s).buffer_ = s.map fontcOf := by
    show printLoop s d.buffer_ = _
    rw [hd, printLoop_period_free s hnul hdot]
  refine ⟨rfl, by rw [hb, List.length_map], ?_⟩
  intro i hi
  rw [hb]
  have hget : (s.map fontcOf).get? i = some (fontcOf (s.get ⟨i, hi⟩)) := by
    simp [List.getElem?_map, List.getElem?_eq_getElem hi]
  rw [hget, fontcOf_eq]
  constructor
  · intro h
    rw [if_pos h]
  · intro h
    have hlt : s.get ⟨i, hi⟩ < alphafonttable.length := by
      rw [alphafonttable_length]; omega
    refine ⟨hlt, ?_⟩
    rw [if_neg (by omega), List.getD_eq_getElem _ _ hlt]
    rfl

theorem print_period_free_witness :
    exampleDisplay.buffer_ = [] ∧ (∀ b ∈ [72, 200, 105], b ≠ 0) ∧
    (∀ b ∈ [72, 200, 105], b ≠ 46) ∧
    (print exampleDisplay [72, 200, 105]).buffer_.length = [72, 200, 105].length :=
  ⟨rfl, by decide, by decide,
    (print_period_free exampleDisplay [72, 200, 105] rfl (by decide) (by decide)).2.1⟩

/-- C2: for every non-NUL byte `c`, `print` of `c` followed by a period on an empty buffer
yields one cell, the glyph cell of `c` with bit 15 set; `"A."` yields `0xF700`. -/
theorem print_char_period (d : HT16K337SegDisplay) (c : Nat)
    (hd : d.buffer_ = []) (hc : c ≠ 0) :
    (print d [c, 46]).buffer_ =
        [(if c > 127 then 0 else alphafonttable.getD c 0 <<< 8) ||| 0x8000] ∧
      ((if c > 127 then 0 else alphafonttable.getD c 0 <<< 8) ||| 0x8000).testBit 15 = true ∧
      (print d [65, 46]).buffer_ = [0xF700] := by
  refine ⟨?_, testBit_lor_dp _, ?_⟩
  · show printLoop [c, 46] d.buffer_ = _
    rw [hd, printLoop_cons_period c hc, ← fontcOf_eq, lor_dp_mod _ (by have := fontcOf_lt c; omega)]
    rfl
  · show printLoop [65, 46] d.buffer_ = _
    rw [hd]
    rfl

theorem print_char_period_witness :
    exampleDisplay.buffer_ = [] ∧ (49 : Nat) ≠ 0 ∧
    (print exampleDisplay [49, 46]).buffer_ =
      [(if 49 > 127 then 0 else alphafonttable.getD 49 0 <<< 8) ||| 0x8000] :=
  ⟨rfl, by decide, (print_char_period exampleDisplay 49 rfl (by decide)).1⟩

/-- C4 (as the code has it): a period that is the first byte of the text is encoded like
any other byte and emits the cell `0x8000` of its own; when `s` does not begin with a
period, `print('.' followed by s)` on an empty buffer is `0x8000` followed by the cells of
`print(s)`, and `print` of two periods followed by `t` is `0x8000` followed by the cells of
`print(t)`. So `".A"` yields the two cells `0x8000, 0x7700`, bit 15 of the second clear. -/
theorem print_leading_period (d : HT16K337SegDisplay) (s : List Nat)
    (hd : d.buffer_ = []) (hs : s.head? ≠ some 46) :
    (print d (46 :: s)).buffer_ = 0x8000 :: (print d s).buffer_ ∧
    (print d (46 :: 46 :: s)).buffer_ = 0x8000 :: (print d s).buffer_ ∧
    (print d [46, 65]).buffer_ = [0x8000, 0x7700] ∧
    (0x7700 : Nat).testBit 15 = false := by
  have e : ∀ t, (print d t).buffer_ = printLoop t [] := fun t => by
    show printLoop t d.buffer_ = _
    rw [hd]
  refine ⟨?_, ?_, ?_, by decide⟩
  · rw [e, e, printLoop_cons_other 46 (by decide) s hs]
    rfl
  · rw [e, e, printLoop_cons_period 46 (by decide) s]
    rfl
  · rw [e]
    rfl

theorem print_leading_period_witness :
    exampleDisplay.buffer_ = [] ∧ ([72, 105] : List Nat).head? ≠ some 46 ∧
    (print exampleDisplay [46, 72, 105]).buffer_ =
      0x8000 :: (print exampleDisplay [72, 105]).buffer_ :=
  ⟨rfl, by decide, (print_leading_period exampleDisplay [72, 105] rfl (by decide)).1⟩

/-- C4 fails as stated: on an empty buffer `print(".A")` yields the two cells
`0x8000, 0x7700`, not the one cell of `print("A")`. -/
theorem print_leading_period_claim_fails :
    (∀ b ∈ [65], b ≠ 0) ∧ exampleDisplay.buffer_ = [] ∧
    (print exampleDisplay [46, 65]).buffer_ = [0x8000, 0x7700] ∧
    (print exampleDisplay [46, 65]).buffer_.length ≠ 1 ∧
    (print exampleDisplay [46, 65]).buffer_ ≠ (print exampleDisplay [65]).buffer_ := by
  decide

/-- C5 (as the code has it): `print` appends to the frame buffer, the cells of `s` following
the prior contents; it is the refresh `update` that clears the buffer before the content
producer runs, so the buffer after a refresh does not depend on the prior buffer, and
after a refresh whose producer prints `s` it is what `print(s)` yields from empty. -/
theorem print_appends_update_replaces (mem : Memory) (d : HT16K337SegDisplay)
    (s b : List Nat) (writer : List (List Nat)) (now : Nat) :
    (print d s).buffer_ = d.buffer_ ++ (print { d with buffer_ := [] } s).buffer_ ∧
    (update mem writer { d with buffer_ := b } now).1.buffer_ =
      (update mem writer d now).1.buffer_ ∧
    (update mem [s] d now).1.buffer_ = (print { d with buffer_ := [] } s).buffer_ := by
  have hu : ∀ (w : List (List Nat)) (x : HT16K337SegDisplay),
      (update mem w x now).1.buffer_ = (call_writer { x with buffer_ := [] } w).buffer_ := by
    intro w x
    unfold update
    dsimp only
    split <;> rfl
  refine ⟨printLoop_buf s d.buffer_, ?_, ?_⟩
  · rw [hu, hu]
  · rw [hu]
    rfl

/-- C5 fails as stated: with the prior buffer `[1]`, `print("A")` leaves `[1, 0x7700]`,
while from an empty buffer it leaves `[0x7700]`. -/
theorem print_replaces_claim_fails :
    (print { exampleDisplay with buffer_ := [1] } [65]).buffer_ = [1, 0x7700] ∧
    (print { exampleDisplay with buffer_ := [] } [65]).buffer_ = [0x7700] ∧
    (print { exampleDisplay with buffer_ := [1] } [65]).buffer_ ≠
      (print { exampleDisplay with buffer_ := [] } [65]).buffer_ := by
  decide

/-! ## Properties of the scroll controller -/

theorem loop_scrolling (mem : Memory) (d : HT16K337SegDisplay) (now : Nat)
    (hs : d.scroll_ = true) (hlen : d.buffer_.length > d.displays_ * 4) :
    loop mem d now =
      if d.offset_ = 0 ∧ usub now d.last_scroll_ < d.scroll_delay_ then (d, [])
      else if (d.continuous_ = false ∧
            d.offset_ + ((d.displays_ * 4 : Nat) : Int) ≥ (d.buffer_.length : Int)) ∨
          (d.continuous_ = true ∧ d.offset_ > (d.buffer_.length : Int) - 1) then
        if d.continuous_ = true ∨ usub now d.last_scroll_ ≥ d.scroll_dwell_ then
          ({ d with offset_ := 0, last_scroll_ := now },
            [display_ mem { d with offset_ := 0, last_scroll_ := now }])
        else (d, [])
      else if usub now d.last_scroll_ ≥ d.scroll_speed_ then
        ({ d with offset_ := d.offset_ + 1, last_scroll_ := now },
          [display_ mem { d with offset_ := d.offset_ + 1, last_scroll_ := now }])
      else (d, []) := by
  have h1 : ¬(d.scroll_ = false ∨
      (d.buffer_.length : Int) ≤ ((d.displays_ * CHAR_COL_COUNT : Nat) : Int)) := by
    unfold CHAR_COL_COUNT
    rintro (h | h)
    · rw [hs] at h
      exact Bool.noConfusion h
    · omega
  unfold loop
  dsimp only
  rw [if_neg h1]
  rfl

/-- C6: when scrolling is disabled or the buffer is no longer than the viewport
`displays * 4`, `loop` returns the state as it was (offset, last transition time and
buffer unchanged) and makes no redraw. -/
theorem loop_static_noop (mem : Memory) (d : HT16K337SegDisplay) (now : Nat)
    (h : d.scroll_ = false ∨ d.buffer_.length ≤ d.displays_ * 4) :
    loop mem d now = (d, []) := by
  have h1 : d.scroll_ = false ∨
      (d.buffer_.length : Int) ≤ ((d.displays_ * CHAR_COL_COUNT : Nat) : Int) := by
    unfold CHAR_COL_COUNT
    rcases h with h | h
    · exact Or.inl h
    · exact Or.inr (by exact_mod_cast h)
  unfold loop
  dsimp only
  rw [if_pos h1]

theorem loop_static_noop_witness :
    (exampleDisplay.scroll_ = false ∨
      exampleDisplay.buffer_.length ≤ exampleDisplay.displays_ * 4) ∧
    loop exampleMemory exampleDisplay 5000 = (exampleDisplay, []) :=
  ⟨by decide, loop_static_noop exampleMemory exampleDisplay 5000 (by decide)⟩

/-- C7: bounce mode at the end of the buffer (scrolling on, continuous off, buffer longer
than the viewport, `offset + displays * 4 ≥ length`): when the elapsed time
`now - last_scroll_` (unsigned) has reached `scroll_dwell_`, `loop` sets the offset to `0`
and the last transition time to `now` and redraws once; before that it changes nothing
and does not redraw. -/
theorem loop_bounce_end (mem : Memory) (d : HT16K337SegDisplay) (now : Nat)
    (hs : d.scroll_ = true) (hc : d.continuous_ = false)
    (hlen : d.buffer_.length > d.displays_ * 4)
    (hend : d.offset_ + ((d.displays_ * 4 : Nat) : Int) ≥ (d.buffer_.length : Int)) :
    (usub now d.last_scroll_ ≥ d.scroll_dwell_ →
      loop mem d now =
        ({ d with offset_ := 0, last_scroll_ := now },
          [display_ mem { d with offset_ := 0, last_scroll_ := now }])) ∧
    (usub now d.last_scroll_ < d.scroll_dwell_ → loop mem d now = (d, [])) := by
  have h0 : ¬(d.offset_ = 0 ∧ usub now d.last_scroll_ < d.scroll_delay_) := by
    intro h
    omega
  rw [loop_scrolling mem d now hs hlen, if_neg h0, if_pos (Or.inl ⟨hc, hend⟩)]
  constructor
  · intro h
    rw [if_pos (Or.inr h)]
  · intro h
    rw [if_neg]
    rw [hc]
    simp only [Bool.false_eq_true, false_or]
    omega

theorem loop_bounce_end_witness :
    exampleAtEnd.scroll_ = true ∧ exampleAtEnd.continuous_ = false ∧
    exampleAtEnd.buffer_.length > exampleAtEnd.displays_ * 4 ∧
    exampleAtEnd.offset_ + ((exampleAtEnd.displays_ * 4 : Nat) : Int) ≥
      (exampleAtEnd.buffer_.length : Int) ∧
    usub 3000 exampleAtEnd.last_scroll_ ≥ exampleAtEnd.scroll_dwell_ ∧
    loop exampleMemory exampleAtEnd 3000 =
      ({ exampleAtEnd with offset_ := 0, last_scroll_ := 3000 },
        [display_ exampleMemory { exampleAtEnd with offset_ := 0, last_scroll_ := 3000 }]) :=
  ⟨by decide, by decide, by decide, by decide, by decide,
    (loop_bounce_end exampleMemory exampleAtEnd 3000 (by decide) (by decide) (by decide)
      (by decide)).1 (by decide)⟩

/-- C8: continuous mode past the end (scrolling on, continuous on, buffer longer than the
viewport, `offset > length - 1`): at every time and for every delay, speed and dwell,
`loop` sets the offset to `0` and the last transition time to `now` and redraws once. -/
theorem loop_continuous_wrap (mem : Memory) (d : HT16K337SegDisplay) (now : Nat)
    (hs : d.scroll_ = true) (hc : d.continuous_ = true)
    (hlen : d.buffer_.length > d.displays_ * 4)
    (hend : d.offset_ > (d.buffer_.length : Int) - 1) :
    loop mem d now =
      ({ d with offset_ := 0, last_scroll_ := now },
        [display_ mem { d with offset_ := 0, last_scroll_ := now }]) := by
  have h0 : ¬(d.offset_ = 0 ∧ usub now d.last_scroll_ < d.scroll_delay_) := by
    intro h
    omega
  rw [loop_scrolling mem d now hs hlen, if_neg h0, if_pos (Or.inr ⟨hc, hend⟩),
    if_pos (Or.inl hc)]

theorem loop_continuous_wrap_witness :
    exampleWrapped.scroll_ = true ∧ exampleWrapped.continuous_ = true ∧
    exampleWrapped.buffer_.length > exampleWrapped.displays_ * 4 ∧
    exampleWrapped.offset_ > (exampleWrapped.buffer_.length : Int) - 1 ∧
    loop exampleMemory exampleWrapped 1001 =
      ({ exampleWrapped with offset_ := 0, last_scroll_ := 1001 },
        [display_ exampleMemory { exampleWrapped with offset_ := 0, last_scroll_ := 1001 }]) :=
  ⟨by decide, by decide, by decide, by decide,
    loop_continuous_wrap exampleMemory exampleWrapped 1001 (by decide) (by decide) (by decide)
      (by decide)⟩

/-- C9: the advance step (scrolling on, buffer longer than the viewport, not idle and not at
the end of the buffer for the mode): when the elapsed time has reached `scroll_speed_`,
`loop` adds exactly one to the offset, sets the last transition time to `now` and redraws
once; before that it changes nothing. The buffer is the same afterwards in both cases. -/
theorem loop_advance (mem : Memory) (d : HT16K337SegDisplay) (now : Nat)
    (hs : d.scroll_ = true) (hlen : d.buffer_.length > d.displays_ * 4)
    (hidle : ¬(d.offset_ = 0 ∧ usub now d.last_scroll_ < d.scroll_delay_))
    (hend : ¬((d.continuous_ = false ∧
          d.offset_ + ((d.displays_ * 4 : Nat) : Int) ≥ (d.buffer_.length : Int)) ∨
        (d.continuous_ = true ∧ d.offset_ > (d.buffer_.length : Int) - 1))) :
    (usub now d.last_scroll_ ≥ d.scroll_speed_ →
      loop mem d now =
        ({ d with offset_ := d.offset_ + 1, last_scroll_ := now },
          [display_ mem { d with offset_ := d.offset_ + 1, last_scroll_ := now }])) ∧
    (usub now d.last_scroll_ < d.scroll_speed_ → loop mem d now = (d, [])) ∧
    (loop mem d now).1.buffer_ = d.buffer_ := by
  rw [loop_scrolling mem d now hs hlen, if_neg hidle, if_neg hend]
  refine ⟨?_, ?_, ?_⟩
  · intro h
    rw [if_pos h]
  · intro h
    rw [if_neg (by omega)]
  · split <;> rfl

theorem loop_advance_witness :
    exampleScrolling.scroll_ = true ∧
    exampleScrolling.buffer_.length > exampleScrolling.displays_ * 4 ∧
    ¬(exampleScrolling.offset_ = 0 ∧
      usub 1250 exampleScrolling.last_scroll_ < exampleScrolling.scroll_delay_) ∧
    ¬((exampleScrolling.continuous_ = false ∧
          exampleScrolling.offset_ + ((exampleScrolling.displays_ * 4 : Nat) : Int) ≥
            (exampleScrolling.buffer_.length : Int)) ∨
        (exampleScrolling.continuous_ = true ∧
          exampleScrolling.offset_ > (exampleScrolling.buffer_.length : Int) - 1)) ∧
    usub 1250 exampleScrolling.last_scroll_ ≥ exampleScrolling.scroll_speed_ ∧
    loop exampleMemory exampleScrolling 1250 =
      ({ exampleScrolling with offset_ := exampleScrolling.offset_ + 1, last_scroll_ := 1250 },
        [display_ exampleMemory
          { exampleScrolling with offset_ := exampleScrolling.offset_ + 1,
                                  last_scroll_ := 1250 }]) :=
  ⟨by decide, by decide, by decide, by decide, by decide,
    (loop_advance exampleMemory exampleScrolling 1250 (by decide) (by decide) (by decide)
      (by decide)).1 (by decide)⟩

/-- C10: the initial hold (scrolling on, buffer longer than the viewport, offset `0`): a
call of `loop` at a time with `now - last_scroll_ < scroll_delay_` leaves the offset and the
last transition time as they were and does not redraw, whatever the speed and dwell. -/
theorem loop_initial_hold (mem : Memory) (d : HT16K337SegDisplay) (now : Nat)
    (hs : d.scroll_ = true) (hlen : d.buffer_.length > d.displays_ * 4)
    (hoff : d.offset_ = 0) (hel : usub now d.last_scroll_ < d.scroll_delay_) :
    loop mem d now = (d, []) := by
  rw [loop_scrolling mem d now hs hlen, if_pos ⟨hoff, hel⟩]

theorem loop_initial_hold_witness :
    exampleIdle.scroll_ = true ∧ exampleIdle.buffer_.length > exampleIdle.displays_ * 4 ∧
    exampleIdle.offset_ = 0 ∧ usub 1749 exampleIdle.last_scroll_ < exampleIdle.scroll_delay_ ∧
    loop exampleMemory exampleIdle 1749 = (exampleIdle, []) :=
  ⟨by decide, by decide, by decide, by decide,
    loop_initial_hold exampleMemory exampleIdle 1749 (by decide) (by decide) (by decide)
      (by decide)⟩

/-! ## Properties of ticks and refreshes -/

theorem loop_cases (mem : Memory) (d : HT16K337SegDisplay) (now : Nat) :
    loop mem d now = (d, []) ∨
    (d.offset_ ≠ 0 ∧
      loop mem d now =
        ({ d with offset_ := 0, last_scroll_ := now },
          [display_ mem { d with offset_ := 0, last_scroll_ := now }])) ∨
    (d.scroll_ = true ∧
      (d.continuous_ = false →
        d.offset_ + ((d.displays_ * 4 : Nat) : Int) < (d.buffer_.length : Int)) ∧
      (d.continuous_ = true → d.offset_ ≤ (d.buffer_.length : Int) - 1) ∧
      loop mem d now =
        ({ d with offset_ := d.offset_ + 1, last_scroll_ := now },
          [display_ mem { d with offset_ := d.offset_ + 1, last_scroll_ := now }])) := by
  unfold loop
  dsimp only
  unfold CHAR_COL_COUNT
  split_ifs with h1 h2 h3 h4 h5
  · exact Or.inl rfl
  · exact Or.inl rfl
  · refine Or.inr (Or.inl ⟨?_, rfl⟩)
    intro h0
    rcases h3 with ⟨_, h3⟩ | ⟨_, h3⟩
    · have : ¬((d.buffer_.length : Int) ≤ ((d.displays_ * 4 : Nat) : Int)) := fun h => h1 (Or.inr h)
      omega
    · have : ¬((d.buffer_.length : Int) ≤ ((d.displays_ * 4 : Nat) : Int)) := fun h => h1 (Or.inr h)
      omega
  · exact Or.inl rfl
  · refine Or.inr (Or.inr ⟨?_, ?_, ?_, rfl⟩)
    · cases hs : d.scroll_
      · exact absurd (Or.inl hs) h1
      · rfl
    · intro hc
      have : ¬(d.offset_ + ((d.displays_ * 4 : Nat) : Int) ≥ (d.buffer_.length : Int)) :=
        fun h => h3 (Or.inl ⟨hc, h⟩)
      omega
    · intro hc
      have : ¬(d.offset_ > (d.buffer_.length : Int) - 1) := fun h => h3 (Or.inr ⟨hc, h⟩)
      omega
  · exact Or.inl rfl

/-- C11: a call of `loop` makes at most one redraw, and it makes one exactly when the
offset after the call differs from the offset before it, the new offset then being `0`
or the old one plus one; a call that leaves the offset as it was writes nothing. This
holds for every state, a non-negative offset included. -/
theorem loop_redraw_iff_transition (mem : Memory) (d : HT16K337SegDisplay) (now : Nat) :
    (loop mem d now).2.length ≤ 1 ∧
    ((loop mem d now).2.length = 1 ↔ (loop mem d now).1.offset_ ≠ d.offset_) ∧
    ((loop mem d now).1.offset_ ≠ d.offset_ →
      (loop mem d now).1.offset_ = 0 ∨ (loop mem d now).1.offset_ = d.offset_ + 1) ∧
    ((loop mem d now).1.offset_ = d.offset_ → (loop mem d now).2 = []) := by
  rcases loop_cases mem d now with h | ⟨h0, h⟩ | ⟨_, _, _, h⟩
  · rw [h]
    simp
  · rw [h]
    refine ⟨by simp, ?_, ?_, ?_⟩
    · simpa using fun e : (0 : Int) = d.offset_ => h0 e.symm
    · intro _
      exact Or.inl rfl
    · intro e
      exact absurd e.symm h0
  · rw [h]
    refine ⟨by simp, ?_, ?_, ?_⟩
    · simp
    · intro _
      exact Or.inr rfl
    · intro e
      have e2 : d.offset_ + 1 = d.offset_ := e
      omega

theorem loop_static_aux (mem : Memory) (d : HT16K337SegDisplay) (now : Nat)
    (h : d.scroll_ = false ∨ d.buffer_.length ≤ d.displays_ * 4) :
    loop mem d now = (d, []) := by
  have h1 : d.scroll_ = false ∨
      (d.buffer_.length : Int) ≤ ((d.displays_ * CHAR_COL_COUNT : Nat) : Int) := by
    unfold CHAR_COL_COUNT
    rcases h with h | h
    · exact Or.inl h
    · exact Or.inr (by exact_mod_cast h)
  unfold loop
  dsimp only
  rw [if_pos h1]

theorem run_ticks_static (mem : Memory) (d : HT16K337SegDisplay)
    (h : d.scroll_ = false ∨ d.buffer_.length ≤ d.displays_ * 4) (ticks : List Nat) :
    run mem d (ticks.map Event.tick) = (d, []) := by
  induction ticks with
  | nil => rfl
  | cons t rest ih =>
    simp only [List.map_cons, run, step]
    rw [loop_static_aux mem d t h]
    dsimp only
    rw [ih]
    rfl

theorem print_fields (d : HT16K337SegDisplay) (s : List Nat) :
    (print d s).displays_ = d.displays_ ∧ (print d s).scroll_ = d.scroll_ ∧
    (print d s).continuous_ = d.continuous_ ∧ (print d s).offset_ = d.offset_ ∧
    (print d s).last_scroll_ = d.last_scroll_ :=
  ⟨rfl, rfl, rfl, rfl, rfl⟩

theorem call_writer_fields (w : List (List Nat)) :
    ∀ d : HT16K337SegDisplay,
    (call_writer d w).displays_ = d.displays_ ∧ (call_writer d w).scroll_ = d.scroll_ ∧
    (call_writer d w).continuous_ = d.continuous_ ∧ (call_writer d w).offset_ = d.offset_ ∧
    (call_writer d w).last_scroll_ = d.last_scroll_ := by
  induction w with
  | nil => intro d; exact ⟨rfl, rfl, rfl, rfl, rfl⟩
  | cons s rest ih =>
    intro d
    have h := ih (print d s)
    have hp := print_fields d s
    unfold call_writer at h ⊢
    rw [List.foldl_cons]
    refine ⟨h.1.trans hp.1, h.2.1.trans hp.2.1, h.2.2.1.trans hp.2.2.1,
      h.2.2.2.1.trans hp.2.2.2.1, h.2.2.2.2.trans hp.2.2.2.2⟩

/-- The state left by `update`, with the quantities its condition compares. -/
theorem update_state (mem : Memory) (w : List (List Nat)) (d : HT16K337SegDisplay) (now : Nat) :
    (update mem w d now).1 =
      if (d.scroll_ = true ∧
            (d.buffer_.length : Int) ≠
              ((call_writer { d with buffer_ := [] } w).buffer_.length : Int) ∧
            d.continuous_ = false) ∨
          ((call_writer { d with buffer_ := [] } w).buffer_.length : Int) ≤
            ((d.displays_ * 4 : Nat) : Int) then
        { call_writer { d with buffer_ := [] } w with last_scroll_ := now, offset_ := 0 }
      else call_writer { d with buffer_ := [] } w := by
  obtain ⟨h1, h2, h3, _, _⟩ := call_writer_fields w { d with buffer_ := [] }
  unfold update
  dsimp only
  rw [h1, h2, h3]
  rfl

/-- C12: when the buffer left by a refresh is no longer than the viewport `displays * 4`,
the offset after the refresh is `0`, and every sequence of ticks that follows, at any
times, leaves the state as the refresh left it and makes no redraw. -/
theorem update_short_buffer_static (mem : Memory) (w : List (List Nat))
    (d : HT16K337SegDisplay) (now : Nat)
    (h : (update mem w d now).1.buffer_.length ≤ (update mem w d now).1.displays_ * 4) :
    (update mem w d now).1.offset_ = 0 ∧
    ∀ ticks : List Nat,
      run mem (update mem w d now).1 (ticks.map Event.tick) = ((update mem w d now).1, []) := by
  refine ⟨?_, fun ticks => run_ticks_static mem _ (Or.inr h) ticks⟩
  obtain ⟨h1, _, _, _, _⟩ := call_writer_fields w { d with buffer_ := [] }
  rw [update_state] at h ⊢
  split
  · rfl
  · rename_i hn
    rw [if_neg hn] at h
    rw [h1] at h
    exact absurd (Or.inr (by exact_mod_cast h)) hn

theorem update_short_buffer_static_witness :
    (update exampleMemory [[72, 105]] exampleAtEnd 5000).1.buffer_.length ≤
      (update exampleMemory [[72, 105]] exampleAtEnd 5000).1.displays_ * 4 ∧
    (update exampleMemory [[72, 105]] exampleAtEnd 5000).1.offset_ = 0 ∧
    run exampleMemory (update exampleMemory [[72, 105]] exampleAtEnd 5000).1
        ([6000, 9000].map Event.tick) =
      ((update exampleMemory [[72, 105]] exampleAtEnd 5000).1, []) :=
  ⟨by decide,
    (update_short_buffer_static exampleMemory [[72, 105]] exampleAtEnd 5000 (by decide)).1,
    (update_short_buffer_static exampleMemory [[72, 105]] exampleAtEnd 5000 (by decide)).2
      [6000, 9000]⟩

/-- C13: in bounce mode with scrolling enabled, a refresh that leaves a buffer of a length
other than the one it found sets the offset to `0` and the last transition time to the
time of the refresh, whatever the new length is. -/
theorem update_bounce_length_change (mem : Memory) (w : List (List Nat))
    (d : HT16K337SegDisplay) (now : Nat)
    (hs : d.scroll_ = true) (hc : d.continuous_ = false)
    (hlen : (update mem w d now).1.buffer_.length ≠ d.buffer_.length) :
    (update mem w d now).1.offset_ = 0 ∧ (update mem w d now).1.last_scroll_ = now := by
  rw [update_state] at hlen ⊢
  split
  · exact ⟨rfl, rfl⟩
  · rename_i hn
    rw [if_neg hn] at hlen
    refine absurd (Or.inl ⟨hs, ?_, hc⟩) hn
    intro e
    exact hlen (by exact_mod_cast e.symm)

theorem update_bounce_length_change_witness :
    exampleAtEnd.scroll_ = true ∧ exampleAtEnd.continuous_ = false ∧
    (update exampleMemory [[72, 101, 108, 108, 111, 32, 33]] exampleAtEnd 5000).1.buffer_.length ≠
      exampleAtEnd.buffer_.length ∧
    (update exampleMemory [[72, 101, 108, 108, 111, 32, 33]] exampleAtEnd 5000).1.offset_ = 0 ∧
    (update exampleMemory [[72, 101, 108, 108, 111, 32, 33]] exampleAtEnd 5000).1.last_scroll_ =
      5000 :=
  ⟨by decide, by decide, by decide,
    update_bounce_length_change exampleMemory [[72, 101, 108, 108, 111, 32, 33]] exampleAtEnd 5000
      (by decide) (by decide) (by decide)⟩

/-! ## Properties of the window renderer -/

theorem bufferAt_inside (mem : Memory) (buffer : List Nat) (pos : Int)
    (h0 : 0 ≤ pos) (h1 : pos < (buffer.length : Int)) :
    bufferAt mem buffer pos = bufferOrZero buffer pos := by
  have hlt : pos.toNat < buffer.length := by omega
  unfold bufferAt bufferOrZero
  rw [if_pos h0, if_pos ⟨h0, h1⟩, List.get?_eq_get hlt, List.getD_eq_getElem _ _ hlt]
  rfl

theorem bufferOrZero_outside (buffer : List Nat) (pos : Int)
    (h : (buffer.length : Int) ≤ pos) : bufferOrZero buffer pos = 0 := by
  unfold bufferOrZero
  rw [if_neg (by omega)]

/-- One round of the loop of `display_` on a character column in bounce mode. -/
theorem displayStep_active_bounce (mem : Memory) (d : HT16K337SegDisplay)
    (pos : Int) (data : List Nat) (i : Nat)
    (ha : activeColAt mem i = true) (hc : d.continuous_ = false) (h0 : 0 ≤ pos) :
    displayStep mem d (pos, data) i =
      (if pos < (d.buffer_.length : Int) then pos + 1 else pos,
        data.set i (bufferOrZero d.buffer_ pos)) := by
  unfold displayStep
  dsimp only
  rw [if_neg (by rw [ha]; exact Bool.noConfusion)]
  by_cases h : pos ≥ (d.buffer_.length : Int)
  · rw [if_pos h, if_pos hc, if_neg (by omega), bufferOrZero_outside _ _ h]
  · rw [if_neg h, if_pos (by omega), bufferAt_inside mem _ _ h0 (by omega)]

theorem displayStep_inactive (mem : Memory) (d : HT16K337SegDisplay)
    (st : Int × List Nat) (i : Nat) (ha : activeColAt mem i = false) :
    displayStep mem d st i = (st.1, st.2.set i 0) := by
  unfold displayStep
  dsimp only
  rw [if_pos ha]

theorem activeColAt_unit (mem : Memory) :
    activeColAt mem 0 = true ∧ activeColAt mem 1 = true ∧ activeColAt mem 2 = false ∧
    activeColAt mem 3 = true ∧ activeColAt mem 4 = true :=
  ⟨rfl, rfl, rfl, rfl, rfl⟩

theorem displayData_unit_bounce (mem : Memory) (d : HT16K337SegDisplay)
    (hn : d.displays_ = 1) (hc : d.continuous_ = false) (ho : 0 ≤ d.offset_) :
    displayData mem d =
      [bufferOrZero d.buffer_ d.offset_, bufferOrZero d.buffer_ (d.offset_ + 1), 0,
        bufferOrZero d.buffer_ (d.offset_ + 2), bufferOrZero d.buffer_ (d.offset_ + 3)] := by
  obtain ⟨a0, a1, a2, a3, a4⟩ := activeColAt_unit mem
  unfold displayData
  rw [hn]
  have hr : List.range (1 * COL_COUNT) = [0, 1, 2, 3, 4] := rfl
  dsimp only
  rw [hr]
  simp only [List.foldl_cons, List.foldl_nil, List.map_cons, List.map_nil]
  rw [displayStep_active_bounce mem d _ _ 0 a0 hc ho]
  rw [displayStep_active_bounce mem d _ _ 1 a1 hc (by split_ifs <;> omega)]
  rw [displayStep_inactive mem d _ 2 a2]
  dsimp only
  rw [displayStep_active_bounce mem d _ _ 3 a3 hc (by split_ifs <;> omega)]
  rw [displayStep_active_bounce mem d _ _ 4 a4 hc (by split_ifs <;> omega)]
  simp only [List.set_cons_zero, List.set_cons_succ]
  have key : ∀ p : Int, (d.buffer_.length : Int) ≤ p → bufferOrZero d.buffer_ p = 0 :=
    bufferOrZero_outside _
  split_ifs <;> (try simp only [add_assoc, Int.reduceAdd]) <;>
    repeat (first
      | rfl
      | rw [key (d.offset_ + 3) (by omega)]
      | rw [key (d.offset_ + 2) (by omega)]
      | rw [key (d.offset_ + 1) (by omega)]
      | rw [key d.offset_ (by omega)])

theorem displayReads_unit_bounce (mem : Memory) (d : HT16K337SegDisplay)
    (hn : d.displays_ = 1) (hc : d.continuous_ = false) (ho : 0 ≤ d.offset_) :
    ∀ p ∈ displayReads mem d, 0 ≤ p ∧ p < (d.buffer_.length : Int) := by
  obtain ⟨a0, a1, a2, a3, a4⟩ := activeColAt_unit mem
  unfold displayReads
  rw [hn]
  have hr : List.range (1 * COL_COUNT) = [0, 1, 2, 3, 4] := rfl
  dsimp only
  rw [hr]
  simp only [List.foldl_cons, List.foldl_nil, List.map_cons, List.map_nil]
  rw [displayStep_active_bounce mem d _ _ 0 a0 hc ho]
  rw [displayStep_active_bounce mem d _ _ 1 a1 hc (by split_ifs <;> omega)]
  rw [displayStep_inactive mem d _ 2 a2]
  dsimp only
  rw [displayStep_active_bounce mem d _ _ 3 a3 hc (by split_ifs <;> omega)]
  rw [a0, a1, a2, a3, a4]
  intro p hp
  split_ifs at hp <;> simp at hp <;> omega

/-- C15: one unit in bounce mode with a non-negative offset: `display_` sends the five cells
`B(offset), B(offset+1), 0, B(offset+2), B(offset+3)`, with `B(p)` the buffer cell at `p`
when `p` is within the buffer and `0` otherwise, whatever lies in memory outside the
buffer; every position at which it reads the buffer is within `[0, length)`. -/
theorem display_single_bounce (mem : Memory) (d : HT16K337SegDisplay)
    (hn : d.displays_ = 1) (hc : d.continuous_ = false) (ho : 0 ≤ d.offset_) :
    display_ mem d =
      [{ device := 0, reg := DISPLAY_COMMAND_SET_DDRAM_ADDR,
         data := [bufferOrZero d.buffer_ d.offset_, bufferOrZero d.buffer_ (d.offset_ + 1), 0,
           bufferOrZero d.buffer_ (d.offset_ + 2), bufferOrZero d.buffer_ (d.offset_ + 3)] }] ∧
    ∀ p ∈ displayReads mem d, 0 ≤ p ∧ p < (d.buffer_.length : Int) := by
  refine ⟨?_, displayReads_unit_bounce mem d hn hc ho⟩
  unfold display_
  dsimp only
  rw [displayData_unit_bounce mem d hn hc ho, hn]
  rfl

theorem display_single_bounce_witness :
    exampleTrailing.displays_ = 1 ∧ exampleTrailing.continuous_ = false ∧
    0 ≤ exampleTrailing.offset_ ∧
    display_ exampleMemoryOnes exampleTrailing =
      [{ device := 0, reg := 0, data := [0x7900, 0x7100, 0, 0, 0] }] :=
  ⟨by decide, by decide, by decide,
    (display_single_bounce exampleMemoryOnes exampleTrailing (by decide) (by decide)
      (by decide)).1⟩

theorem displayStep_length (mem : Memory) (d : HT16K337SegDisplay) (st : Int × List Nat)
    (i : Nat) : (displayStep mem d st i).2.length = st.2.length := by
  unfold displayStep
  dsimp only
  split_ifs <;> simp

theorem foldl_displayStep_length (mem : Memory) (d : HT16K337SegDisplay) (l : List Nat) :
    ∀ st : Int × List Nat, (l.foldl (displayStep mem d) st).2.length = st.2.length := by
  induction l with
  | nil => intro st; rfl
  | cons i rest ih =>
    intro st
    rw [List.foldl_cons, ih, displayStep_length]

/-- The array `data` has `displays * 5` cells, and each unit is sent five of them. -/
theorem display_blocks (mem : Memory) (d : HT16K337SegDisplay) :
    (displayData mem d).length = d.displays_ * 5 ∧
    (display_ mem d).length = d.displays_ ∧
    ∀ w ∈ display_ mem d, w.data.length = 5 ∧ w.reg = DISPLAY_COMMAND_SET_DDRAM_ADDR := by
  have hl : (displayData mem d).length = d.displays_ * 5 := by
    unfold displayData
    dsimp only
    rw [foldl_displayStep_length]
    simp [COL_COUNT, ACTIVE_COLS]
  refine ⟨hl, by simp [display_], ?_⟩
  intro w hw
  unfold display_ at hw
  simp only [List.mem_map, List.mem_range] at hw
  obtain ⟨u, hu, rfl⟩ := hw
  refine ⟨?_, rfl⟩
  simp only [List.length_take, List.length_drop, hl, COL_COUNT, ACTIVE_COLS, List.length_cons,
    List.length_nil]
  have : u * 5 + 5 ≤ d.displays_ * 5 := by nlinarith
  omega

theorem displayStep_get_other (mem : Memory) (d : HT16K337SegDisplay) (st : Int × List Nat)
    (i j : Nat) (h : i ≠ j) : (displayStep mem d st i).2.get? j = st.2.get? j := by
  unfold displayStep
  dsimp only
  split_ifs <;> simp [List.getElem?_set_ne h]

/-- With one unit the separator column, index 2, is sent as zero in both modes. -/
theorem displayData_unit_separator (mem : Memory) (d : HT16K337SegDisplay)
    (hn : d.displays_ = 1) : (displayData mem d).get? 2 = some 0 := by
  unfold displayData
  rw [hn]
  have hr : List.range (1 * COL_COUNT) = [0, 1, 2, 3, 4] := rfl
  dsimp only
  rw [hr]
  simp only [List.foldl_cons, List.foldl_nil]
  rw [displayStep_get_other mem d _ 4 2 (by decide), displayStep_get_other mem d _ 3 2 (by decide),
    displayStep_inactive mem d _ 2 (activeColAt_unit mem).2.2.1]
  generalize hst : displayStep mem d (displayStep mem d (d.offset_,
      List.map (dataAfterMemset mem (1 * COL_COUNT)) [0, 1, 2, 3, 4]) 0) 1 = st
  have hl : st.2.length = 5 := by
    rw [← hst, displayStep_length, displayStep_length]
    rfl
  rw [List.get?_eq_getElem?]
  dsimp only
  rw [List.getElem?_set_self (by omega)]

/-- C14: with two units the loop of `display_` indexes `ACTIVE_COLS[i]` up to `i = 9`, past
the five entries of the array. Where the bytes that follow the array are non-zero, the
cell at local index 2 of the second unit (position 7) is the buffer cell `7`, not `0`. -/
theorem display_two_units_separator :
    display_ exampleMemoryOnes exampleTwoUnits =
      [{ device := 0, reg := 0, data := [1, 2, 0, 3, 4] },
       { device := 1, reg := 0, data := [5, 6, 7, 8, 0] }] := by
  decide

/-! ## Properties of the brightness controller -/

theorem cRound_int (n : Int) : cRound (n : ℚ) = n := by
  unfold cRound
  split
  · rw [Int.floor_eq_iff]
    constructor
    · linarith
    · linarith
  · rw [Int.ceil_eq_iff]
    constructor
    · linarith
    · linarith

/-- The value of `cRound` is an integer nearest to its argument. -/
theorem cRound_near (x : ℚ) : |((cRound x : Int) : ℚ) - x| ≤ 1 / 2 := by
  unfold cRound
  rw [abs_le]
  split
  · have h1 := Int.floor_le (x + 1 / 2)
    have h2 := Int.lt_floor_add_one (x + 1 / 2)
    constructor <;> linarith
  · have h1 := Int.le_ceil (x - 1 / 2)
    have h2 := Int.ceil_lt_add_one (x - 1 / 2)
    constructor <;> linarith

theorem set_brightness_val_level (d : HT16K337SegDisplay) (val : Int) :
    ((set_brightness_val d val).1.brightness_ : Int) = min 16 (max 0 val) ∧
    (set_brightness_val d val).1.brightness_ ≤ 16 := by
  have h : (set_brightness_val d val).1.brightness_ =
      (if (if val < 0 then 0 else val) > 16 then 16 else (if val < 0 then 0 else val)).toNat := rfl
  rw [h]
  constructor
  · split_ifs <;> omega
  · split_ifs <;> omega

theorem floatToInt_inside (conv : Int → Int) (v : Int)
    (h : INT_MIN ≤ v ∧ v ≤ INT_MAX) : floatToInt conv v = v := by
  unfold floatToInt
  rw [if_pos h]

theorem set_brightness_int (conv : Int → Int) (d : HT16K337SegDisplay) (n : Int)
    (h : INT_MIN ≤ 16 * n ∧ 16 * n ≤ INT_MAX) :
    ((set_brightness conv d (n : ℚ)).1.brightness_ : Int) = min 16 (max 0 (16 * n)) := by
  have e : ((n : ℚ) * 16) = ((16 * n : Int) : ℚ) := by push_cast; ring
  unfold set_brightness
  rw [e, cRound_int, floatToInt_inside conv _ h]
  exact (set_brightness_val_level d (16 * n)).1

/-- C16 (as the code has it): for every intensity `x` whose rounded product `round(16 * x)`
lies within the range of the 32-bit `int`, the level stored by `set_brightness(x)` is
`min(16, max(0, round(16 * x)))`; for every intensity the stored level is an integer of
`[0, 16]`; the intensities `-1`, `0`, `1`, `2` store `0`, `0`, `16`, `16`; and
`get_brightness` then returns the stored level divided by 16. -/
theorem set_brightness_level (conv : Int → Int) (d : HT16K337SegDisplay) (x : ℚ)
    (hx : INT_MIN ≤ cRound (16 * x) ∧ cRound (16 * x) ≤ INT_MAX) :
    ((set_brightness conv d x).1.brightness_ : Int) = min 16 (max 0 (cRound (16 * x))) ∧
    (∀ y : ℚ, (set_brightness conv d y).1.brightness_ ≤ 16) ∧
    (set_brightness conv d (-1)).1.brightness_ = 0 ∧
    (set_brightness conv d 0).1.brightness_ = 0 ∧
    (set_brightness conv d 1).1.brightness_ = 16 ∧
    (set_brightness conv d 2).1.brightness_ = 16 ∧
    get_brightness (set_brightness conv d x).1 =
      ((min 16 (max 0 (cRound (16 * x))) : Int) : ℚ) / 16 ∧
    (∀ y : ℚ, get_brightness (set_brightness conv d y).1 =
      ((set_brightness conv d y).1.brightness_ : ℚ) / 16) := by
  have e16 : x * 16 = 16 * x := mul_comm _ _
  have hlev : ((set_brightness conv d x).1.brightness_ : Int) =
      min 16 (max 0 (cRound (16 * x))) := by
    unfold set_brightness
    rw [e16, floatToInt_inside conv _ hx]
    exact (set_brightness_val_level d (cRound (16 * x))).1
  refine ⟨hlev, ?_, ?_, ?_, ?_, ?_, ?_, fun _ => rfl⟩
  · intro y
    exact (set_brightness_val_level d (floatToInt conv (cRound (y * 16)))).2
  · have := set_brightness_int conv d (-1) (by decide)
    simp only [Int.cast_neg, Int.cast_one] at this
    omega
  · have := set_brightness_int conv d 0 (by decide)
    simp only [Int.cast_zero] at this
    omega
  · have := set_brightness_int conv d 1 (by decide)
    simp only [Int.cast_one] at this
    omega
  · have := set_brightness_int conv d 2 (by decide)
    simp only [Int.cast_ofNat] at this
    omega
  · unfold get_brightness
    rw [← hlev]
    rfl

theorem set_brightness_level_witness :
    (INT_MIN ≤ cRound (16 * (1 / 2 : ℚ)) ∧ cRound (16 * (1 / 2 : ℚ)) ≤ INT_MAX) ∧
    ((set_brightness exampleIndefinite exampleDisplay (1 / 2)).1.brightness_ : Int) =
      min 16 (max 0 (cRound (16 * (1 / 2 : ℚ)))) ∧
    cRound (16 * (1 / 2 : ℚ)) = 8 :=
  have e : cRound (16 * (1 / 2 : ℚ)) = 8 := by
    rw [show (16 * (1 / 2) : ℚ) = ((8 : Int) : ℚ) by norm_num, cRound_int]
  have h : INT_MIN ≤ cRound (16 * (1 / 2 : ℚ)) ∧ cRound (16 * (1 / 2 : ℚ)) ≤ INT_MAX := by
    rw [e]
    decide
  ⟨h, (set_brightness_level exampleIndefinite exampleDisplay (1 / 2) h).1, e⟩

/-- C16 fails as stated: at the intensity `2 ^ 27` the rounded product is `2 ^ 31`, one past
`INT_MAX`; where the conversion returns `INT_MIN` for such a value the clamp stores
level `0`, while `min(16, max(0, round(16 * x)))` is `16`. -/
theorem set_brightness_claim_fails :
    cRound (16 * (134217728 : ℚ)) = 2147483648 ∧
    ((set_brightness exampleIndefinite exampleDisplay 134217728).1.brightness_ : Int) = 0 ∧
    min 16 (max 0 (cRound (16 * (134217728 : ℚ)))) = 16 ∧
    ((set_brightness exampleIndefinite exampleDisplay 134217728).1.brightness_ : Int) ≠
      min 16 (max 0 (cRound (16 * (134217728 : ℚ)))) := by
  have e : cRound (16 * (134217728 : ℚ)) = 2147483648 := by
    rw [show (16 * 134217728 : ℚ) = ((2147483648 : Int) : ℚ) by norm_num, cRound_int]
  have e2 : cRound ((134217728 : ℚ) * 16) = 2147483648 := by
    rw [show (134217728 * 16 : ℚ) = ((2147483648 : Int) : ℚ) by norm_num, cRound_int]
  have hs : ((set_brightness exampleIndefinite exampleDisplay 134217728).1.brightness_ : Int)
      = 0 := by
    unfold set_brightness
    rw [e2]
    have hc : floatToInt exampleIndefinite 2147483648 = INT_MIN := by decide
    rw [hc, (set_brightness_val_level exampleDisplay INT_MIN).1]
    decide
  refine ⟨e, hs, ?_, ?_⟩
  · rw [e]
    decide
  · rw [hs, e]
    decide

theorem filter_flatMap_device (f : Nat → List I2CWrite) (u : Nat)
    (hf : ∀ v, ∀ w ∈ f v, w.device = v) (n : Nat) :
    ((List.range n).flatMap f).filter (fun w => decide (w.device = u)) =
      if u < n then f u else [] := by
  induction n with
  | zero => simp
  | succ n ih =>
    rw [List.range_succ, List.flatMap_append, List.filter_append, ih]
    simp only [List.flatMap_cons, List.flatMap_nil, List.append_nil]
    by_cases h1 : u < n
    · rw [if_pos h1, if_pos (by omega)]
      have : (f n).filter (fun w => decide (w.device = u)) = [] := by
        rw [List.filter_eq_nil_iff]
        intro w hw
        have := hf n w hw
        simp only [decide_eq_true_eq]
        omega
      rw [this, List.append_nil]
    · rw [if_neg h1, List.nil_append]
      by_cases h2 : u = n
      · subst h2
        rw [if_pos (by omega)]
        rw [List.filter_eq_self]
        intro w hw
        simp only [decide_eq_true_eq]
        exact hf u w hw
      · rw [if_neg (by omega), List.filter_eq_nil_iff]
        intro w hw
        have := hf n w hw
        simp only [decide_eq_true_eq]
        omega

theorem set_brightness_val_writes (d : HT16K337SegDisplay) (val : Int) (u : Nat)
    (hu : u < d.displays_) :
    (set_brightness_val d val).2.filter (fun w => decide (w.device = u)) =
      if min 16 (max 0 val) = 0 then
        [{ device := u, reg := DISPLAY_COMMAND_DISPLAY_OFF, data := [] }]
      else
        [{ device := u,
           reg := ((DISPLAY_COMMAND_DIMMING : Int) + (min 16 (max 0 val) - 1)).toNat % 256,
           data := [] },
         { device := u, reg := DISPLAY_COMMAND_DISPLAY_ON, data := [] }] := by
  have hv : (if (if val < 0 then 0 else val) > 16 then 16 else (if val < 0 then 0 else val)) =
      min 16 (max 0 val) := by
    split_ifs <;> omega
  unfold set_brightness_val
  dsimp only
  rw [hv, filter_flatMap_device _ u _ d.displays_, if_pos hu]
  intro v w hw
  split at hw
  · simp only [List.mem_singleton] at hw
    rw [hw]
  · simp only [List.mem_cons, List.mem_singleton, List.not_mem_nil, or_false] at hw
    rcases hw with hw | hw <;> rw [hw]

/-- C17: whatever integer the conversion of `set_brightness` yields, each configured unit
`u` receives, when the resulting level is `0`, exactly the one command `0x80`
(display off), and when the level `L` is in `1..16`, exactly the two commands
`0xE0 + (L - 1)`, a byte of `0xE0..0xEF`, and then `0x81` (display on);
`set_brightness(1.0)` sends `0xEF` and then `0x81`. -/
theorem set_brightness_commands (conv : Int → Int) (d : HT16K337SegDisplay) (val : Int)
    (u : Nat) (hu : u < d.displays_) :
    ((set_brightness_val d val).1.brightness_ = 0 →
      (set_brightness_val d val).2.filter (fun w => decide (w.device = u)) =
        [{ device := u, reg := 0x80, data := [] }]) ∧
    (1 ≤ (set_brightness_val d val).1.brightness_ →
      (set_brightness_val d val).1.brightness_ ≤ 16 ∧
      (set_brightness_val d val).2.filter (fun w => decide (w.device = u)) =
        [{ device := u, reg := 0xE0 + ((set_brightness_val d val).1.brightness_ - 1), data := [] },
         { device := u, reg := 0x81, data := [] }] ∧
      0xE0 ≤ 0xE0 + ((set_brightness_val d val).1.brightness_ - 1) ∧
      0xE0 + ((set_brightness_val d val).1.brightness_ - 1) ≤ 0xEF) ∧
    (set_brightness conv d 1).2.filter (fun w => decide (w.device = u)) =
      [{ device := u, reg := 0xEF, data := [] }, { device := u, reg := 0x81, data := [] }] := by
  obtain ⟨hl, hle⟩ := set_brightness_val_level d val
  have hw := set_brightness_val_writes d val u hu
  refine ⟨?_, ?_, ?_⟩
  · intro h0
    rw [hw, if_pos (by omega)]
    rfl
  · intro h1
    refine ⟨hle, ?_, by omega, by omega⟩
    rw [hw, if_neg (by omega), ← hl]
    have e : ((DISPLAY_COMMAND_DIMMING : Int) +
        (((set_brightness_val d val).1.brightness_ : Int) - 1)).toNat % 256 =
        0xE0 + ((set_brightness_val d val).1.brightness_ - 1) := by
      unfold DISPLAY_COMMAND_DIMMING
      omega
    rw [e]
    rfl
  · have h16 : cRound ((1 : ℚ) * 16) = 16 := by
      have := cRound_int 16
      simpa using this
    unfold set_brightness
    rw [h16, floatToInt_inside conv 16 (by decide), set_brightness_val_writes d 16 u hu]
    rfl

theorem set_brightness_commands_witness :
    1 < exampleTwoUnits.displays_ ∧
    (set_brightness_val exampleTwoUnits 5).2.filter (fun w => decide (w.device = 1)) =
      [{ device := 1, reg := 0xE4, data := [] }, { device := 1, reg := 0x81, data := [] }] :=
  ⟨by decide,
    ((set_brightness_commands exampleIndefinite exampleTwoUnits 5 1 (by decide)).2.1
      (by decide)).2.1⟩

/-! ## Properties of sequences of ticks and refreshes -/

theorem loop_config (mem : Memory) (d : HT16K337SegDisplay) (now : Nat) :
    (loop mem d now).1.displays_ = d.displays_ ∧ (loop mem d now).1.scroll_ = d.scroll_ ∧
    (loop mem d now).1.continuous_ = d.continuous_ ∧
    (loop mem d now).1.buffer_ = d.buffer_ := by
  rcases loop_cases mem d now with h | ⟨_, h⟩ | ⟨_, _, _, h⟩ <;> rw [h] <;>
    exact ⟨rfl, rfl, rfl, rfl⟩

theorem loop_offsetInv (mem : Memory) (d : HT16K337SegDisplay) (now : Nat)
    (h : offsetInv d) : offsetInv (loop mem d now).1 := by
  rcases loop_cases mem d now with e | ⟨_, e⟩ | ⟨hs, hb, _, e⟩
  · rw [e]; exact h
  · rw [e]
    exact ⟨le_refl _, fun _ => Or.inl rfl⟩
  · rw [e]
    refine ⟨?_, ?_⟩
    · have := h.1
      show 0 ≤ d.offset_ + 1
      omega
    · intro hc
      have := hb hc
      refine Or.inr ⟨hs, ?_⟩
      show d.offset_ + 1 + ((d.displays_ * 4 : Nat) : Int) ≤ (d.buffer_.length : Int)
      omega

theorem update_config (mem : Memory) (w : List (List Nat)) (d : HT16K337SegDisplay)
    (now : Nat) :
    (update mem w d now).1.displays_ = d.displays_ ∧ (update mem w d now).1.scroll_ = d.scroll_ ∧
    (update mem w d now).1.continuous_ = d.continuous_ := by
  obtain ⟨h1, h2, h3, _, _⟩ := call_writer_fields w { d with buffer_ := [] }
  rw [update_state]
  split
  · exact ⟨h1, h2, h3⟩
  · exact ⟨h1, h2, h3⟩

theorem update_offsetInv (mem : Memory) (w : List (List Nat)) (d : HT16K337SegDisplay)
    (now : Nat) (h : offsetInv d) : offsetInv (update mem w d now).1 := by
  obtain ⟨h1, h2, h3, h4, _⟩ := call_writer_fields w { d with buffer_ := [] }
  rw [update_state]
  split
  · exact ⟨le_refl _, fun _ => Or.inl rfl⟩
  · rename_i hn
    refine ⟨?_, ?_⟩
    · rw [h4]; exact h.1
    · intro hc
      rw [h3] at hc
      rw [h4, h2, h1]
      rcases h.2 hc with h0 | ⟨hs, hw⟩
      · exact Or.inl h0
      · refine Or.inr ⟨hs, ?_⟩
        have hsame : (d.buffer_.length : Int) =
            ((call_writer { d with buffer_ := [] } w).buffer_.length : Int) := by
          by_contra hne
          exact hn (Or.inl ⟨hs, hne, hc⟩)
        rw [← hsame]
        exact hw

theorem run_offsetInv (mem : Memory) (events : List Event) :
    ∀ d : HT16K337SegDisplay, offsetInv d →
      offsetInv (run mem d events).1 ∧
      (run mem d events).1.displays_ = d.displays_ ∧
      (run mem d events).1.scroll_ = d.scroll_ ∧
      (run mem d events).1.continuous_ = d.continuous_ := by
  induction events with
  | nil => intro d h; exact ⟨h, rfl, rfl, rfl⟩
  | cons e rest ih =>
    intro d h
    have hstep : offsetInv (step mem d e).1 ∧ (step mem d e).1.displays_ = d.displays_ ∧
        (step mem d e).1.scroll_ = d.scroll_ ∧ (step mem d e).1.continuous_ = d.continuous_ := by
      cases e with
      | tick now =>
        have := loop_config mem d now
        exact ⟨loop_offsetInv mem d now h, this.1, this.2.1, this.2.2.1⟩
      | refresh w now =>
        exact ⟨update_offsetInv mem w d now h, update_config mem w d now⟩
    obtain ⟨hi, c1, c2, c3⟩ := ih (step mem d e).1 hstep.1
    exact ⟨hi, c1.trans hstep.2.1, c2.trans hstep.2.2.1, c3.trans hstep.2.2.2⟩

theorem offsetInv_initial (d : HT16K337SegDisplay) (h0 : d.offset_ = 0) : offsetInv d :=
  ⟨by rw [h0], fun _ => Or.inl h0⟩

/-- C18 (as the code has it): in every state reached by ticks and refreshes from an initial
state with offset `0` (whatever its buffer, the empty one included), the offset is at
least `0`; in bounce mode with at least one unit it is below the buffer length whenever
the buffer is non-empty. In continuous mode the upper bound is not kept. -/
theorem run_offset_bounds (mem : Memory) (d0 : HT16K337SegDisplay) (events : List Event)
    (h0 : d0.offset_ = 0) :
    0 ≤ (run mem d0 events).1.offset_ ∧
    (d0.continuous_ = false → 1 ≤ d0.displays_ → (run mem d0 events).1.buffer_ ≠ [] →
      (run mem d0 events).1.offset_ < ((run mem d0 events).1.buffer_.length : Int)) := by
  obtain ⟨hi, c1, _, c3⟩ := run_offsetInv mem events d0 (offsetInv_initial d0 h0)
  refine ⟨hi.1, ?_⟩
  intro hc hn hne
  have hpos : 0 < (run mem d0 events).1.buffer_.length := List.length_pos.mpr hne
  rcases hi.2 (c3.trans hc) with hz | ⟨_, hw⟩
  · rw [hz]
    exact_mod_cast hpos
  · rw [c1] at hw
    push_cast at hw
    omega

theorem run_offset_bounds_witness :
    exampleDisplay.offset_ = 0 ∧ exampleDisplay.buffer_ = [] ∧
    exampleDisplay.continuous_ = false ∧ 1 ≤ exampleDisplay.displays_ ∧
    (run exampleMemory exampleDisplay exampleEvents).1.buffer_ ≠ [] ∧
    (run exampleMemory exampleDisplay exampleEvents).1.offset_ <
      ((run exampleMemory exampleDisplay exampleEvents).1.buffer_.length : Int) :=
  ⟨by decide, by decide, by decide, by decide, by decide,
    (run_offset_bounds exampleMemory exampleDisplay exampleEvents (by decide)).2
      (by decide) (by decide) (by decide)⟩

/-- C18 fails as stated: in continuous mode, from offset `0` and an empty buffer, a refresh
printing five cells and five ticks lead to offset `5` on a buffer of length `5`. -/
theorem run_offset_claim_fails :
    exampleContinuous.offset_ = 0 ∧ exampleContinuous.buffer_ = [] ∧
    (run exampleMemory exampleContinuous exampleEvents).1.buffer_ ≠ [] ∧
    (run exampleMemory exampleContinuous exampleEvents).1.offset_ = 5 ∧
    (run exampleMemory exampleContinuous exampleEvents).1.buffer_.length = 5 ∧
    ¬((run exampleMemory exampleContinuous exampleEvents).1.offset_ <
      ((run exampleMemory exampleContinuous exampleEvents).1.buffer_.length : Int)) := by
  decide

/-- C19: in bounce mode, in every state reached by ticks and refreshes from an initial state
with offset `0` (whatever its buffer, the empty one included), the configuration is the
initial one and either the offset is `0` or `offset + displays * 4 ≤ length`: the offset
never exceeds `length - displays * 4` once scrolled, and the window stays within the
buffer. -/
theorem run_bounce_window (mem : Memory) (d0 : HT16K337SegDisplay) (events : List Event)
    (h0 : d0.offset_ = 0) (hc : d0.continuous_ = false) :
    (run mem d0 events).1.displays_ = d0.displays_ ∧
    (run mem d0 events).1.continuous_ = false ∧
    ((run mem d0 events).1.offset_ = 0 ∨
      (run mem d0 events).1.offset_ + ((d0.displays_ * 4 : Nat) : Int) ≤
        ((run mem d0 events).1.buffer_.length : Int)) := by
  obtain ⟨hi, c1, _, c3⟩ := run_offsetInv mem events d0 (offsetInv_initial d0 h0)
  refine ⟨c1, c3.trans hc, ?_⟩
  rcases hi.2 (c3.trans hc) with hz | ⟨_, hw⟩
  · exact Or.inl hz
  · rw [c1] at hw
    exact Or.inr hw

theorem run_bounce_window_witness :
    exampleDisplay.offset_ = 0 ∧ exampleDisplay.buffer_ = [] ∧
    exampleDisplay.continuous_ = false ∧
    (run exampleMemory exampleDisplay exampleEvents).1.offset_ = 1 ∧
    ((run exampleMemory exampleDisplay exampleEvents).1.offset_ = 0 ∨
      (run exampleMemory exampleDisplay exampleEvents).1.offset_ +
          ((exampleDisplay.displays_ * 4 : Nat) : Int) ≤
        ((run exampleMemory exampleDisplay exampleEvents).1.buffer_.length : Int)) :=
  ⟨by decide, by decide, by decide, by decide,
    (run_bounce_window exampleMemory exampleDisplay exampleEvents (by decide) (by decide)).2.2⟩

/-! ## Printing in pieces -/

theorem printLoop_append_aux (n : Nat) :
    ∀ s1 : List Nat, s1.length ≤ n → (∀ b ∈ s1, b ≠ 0) →
      ∀ s2 : List Nat, s2.head? ≠ some 46 →
        printLoop (s1 ++ s2) [] = printLoop s1 [] ++ printLoop s2 [] := by
  induction n with
  | zero =>
    intro s1 hs _ s2 _
    have : s1 = [] := List.length_eq_zero.mp (by omega)
    subst this
    simp [printLoop]
  | succ n ih =>
    intro s1 hs hnul s2 hdot
    match s1, hs, hnul with
    | [], _, _ => simp [printLoop]
    | [c], _, hnul =>
      have hc : c ≠ 0 := hnul c (List.mem_cons_self _ _)
      rw [List.singleton_append, printLoop_cons_other c hc s2 hdot,
        printLoop_cons_other c hc [] (by simp)]
      simp [printLoop]
    | c :: c2 :: rest, hs, hnul =>
      have hc : c ≠ 0 := hnul c (List.mem_cons_self _ _)
      simp only [List.length_cons] at hs
      by_cases h2 : c2 = 46
      · subst h2
        have hr : ∀ b ∈ rest, b ≠ 0 := fun b hb =>
          hnul b (List.mem_cons_of_mem _ (List.mem_cons_of_mem _ hb))
        rw [List.cons_append, List.cons_append, printLoop_cons_period c hc,
          printLoop_cons_period c hc, ih rest (by omega) hr s2 hdot]
        rfl
      · have hr : ∀ b ∈ c2 :: rest, b ≠ 0 := fun b hb => hnul b (List.mem_cons_of_mem _ hb)
        rw [List.cons_append, printLoop_cons_other c hc _ (by simpa using h2),
          printLoop_cons_other c hc _ (by simpa using h2),
          ih (c2 :: rest) (by simp; omega) hr s2 hdot]
        rfl

/-- C20: for a NUL-free text `s1` and a text `s2` that does not begin with a period, and
every prior buffer, `print(s1)` followed by `print(s2)` leaves the same state as the one
call `print(s1 followed by s2)`: the prior buffer, then the cells of `s1`, then the cells
of `s2`. -/
theorem print_pieces (d : HT16K337SegDisplay) (s1 s2 : List Nat)
    (h1 : ∀ b ∈ s1, b ≠ 0) (hdot : s2.head? ≠ some 46) :
    print (print d s1) s2 = print d (s1 ++ s2) ∧
    (print d (s1 ++ s2)).buffer_ =
      d.buffer_ ++ (print { d with buffer_ := [] } s1).buffer_ ++
        (print { d with buffer_ := [] } s2).buffer_ := by
  have happ := printLoop_append_aux s1.length s1 (Nat.le_refl _) h1 s2 hdot
  have hb : printLoop (s1 ++ s2) d.buffer_ =
      d.buffer_ ++ printLoop s1 [] ++ printLoop s2 [] := by
    rw [printLoop_buf, happ, List.append_assoc]
  constructor
  · show ({ print d s1 with buffer_ := printLoop s2 (print d s1).buffer_ } : HT16K337SegDisplay) =
      { d with buffer_ := printLoop (s1 ++ s2) d.buffer_ }
    have e : printLoop s2 (print d s1).buffer_ = printLoop (s1 ++ s2) d.buffer_ := by
      show printLoop s2 (printLoop s1 d.buffer_) = _
      rw [hb, printLoop_buf s2, printLoop_buf s1]
    rw [e]
    rfl
  · exact hb

theorem print_pieces_witness :
    (∀ b ∈ [49, 50, 46], b ≠ 0) ∧ ([51, 46, 52] : List Nat).head? ≠ some 46 ∧
    print (print exampleScrolling [49, 50, 46]) [51, 46, 52] =
      print exampleScrolling ([49, 50, 46] ++ [51, 46, 52]) :=
  ⟨by decide, by decide, (print_pieces exampleScrolling [49, 50, 46] [51, 46, 52] (by decide)
    (by decide)).1⟩

end ht16k33_7seg
end esphome
